import Mathlib

/-!
Verification of the sink dispatch core of the kiwi structured logging
library (sink.go), via a shallow embedding in Lean 4.

Modelling conventions:
* Go maps `map[string]Filter` are embedded as functions `String → Option Filter`
  (observationally equivalent: insert overwrites, delete removes, lookup of an
  absent key yields the zero value).  `map[string]bool` with default `false`
  is embedded as `String → Bool`.
* `io.Writer` destinations are compared by identity in the Go code
  (`sink.writer == w`); we model destination identities as `Nat` tokens, with
  `Option Nat` for the nullable field (`nil` after Close).  Formatters are
  likewise plain `Nat` tokens; what the formatter observes — the sequence of
  `Pair(key, value, quoted)` calls — is modelled as the output trace of
  `filterRecord`.
* The sink's input channel is modelled by passing the queued entries
  explicitly to `processQueue`.  A `box`'s `Group` (the completion handle) is
  always non-nil in the code: the only two constructors of `box` — `Flush`
  (sink.go line 315) and `sinkRecord` (line 403) — both pass a fresh
  `&sync.WaitGroup`.  Each handled entry signals its handle exactly once
  (every branch of `processOutput` calls `Group.Done()` once), so a step in
  the trace of `processQueue` stands for exactly one completion signal.
-/

namespace Kiwi

/-- Modelled from the spec: the `pair` value type lives in pair.go, which is
not under src/.  Of the tagged value union the sink pipeline reads only the
rendered display string (`Strv`) and the quoting flag (`Quoted`), which is
what this structure keeps. -/
structure value where
  Strv : String
  Quoted : Bool
deriving DecidableEq

/-- Modelled from the spec: a key-value datum as consumed by sink.go
(`pair.Key`, `pair.Val.Strv`, `pair.Val.Quoted`). -/
structure pair where
  Key : String
  Val : value
deriving DecidableEq

/-- The `Filter` capability.  sink.go constructs the variants
`keyFilter{}`, `valsFilter{Vals}`, `int64RangeFilter{From, To}`,
`float64RangeFilter{From, To}`, `timeRangeFilter{From, To}` and accepts any
custom filter through `WithFilter`; the spec (§3, §9) describes them as a
closed sum.  The float64 and time.Time bounds are abstracted to an integer
carrier (no claim evaluates those variants' predicates). -/
inductive Filter where
  | keyFilter : Filter
  | valsFilter (Vals : List String) : Filter
  | int64RangeFilter (From To : Int) : Filter
  | float64RangeFilter (From To : Int) : Filter
  | timeRangeFilter (From To : Int) : Filter
  | custom (check : String → String → Bool) : Filter

/-- Modelled from the spec: the filter implementations live in filt.go, which
is not under src/.  Spec §3: `Check(key, stringValue) -> bool`; variants:
key-presence (passes whenever invoked, since it is looked up by its key),
value-membership set, signed-integer range, float range, time range (range
variants read the rendered value numerically against [From, To]), custom
predicate (the user-supplied method itself). -/
def Filter.Check : Filter → String → String → Bool
  | .keyFilter, _, _ => true
  | .valsFilter vs, _, v => vs.contains v
  | .int64RangeFilter lo hi, _, v =>
      (v.toInt?.map fun n => decide (lo ≤ n ∧ n ≤ hi)).getD false
  | .float64RangeFilter lo hi, _, v =>
      (v.toInt?.map fun n => decide (lo ≤ n ∧ n ≤ hi)).getD false
  | .timeRangeFilter lo hi, _, v =>
      (v.toInt?.map fun n => decide (lo ≤ n ∧ n ≤ hi)).getD false
  | .custom f, k, v => f k v

/-- A dispatch entry (`box`): the record pointer, `none` marking a flush
request.  The completion handle is implicit (always present, see the header
comment). -/
abbrev Box := Option (List pair)

/-- The `Sink` state (sink.go lines 54-66).  The input channel and the lock
are not part of the value state; the channel's content is passed to
`processQueue` explicitly. -/
structure Sink where
  id : Nat
  writer : Option Nat
  format : Nat
  closed : Bool
  paused : Bool
  positiveFilters : String → Option Filter
  negativeFilters : String → Option Filter
  hiddenKeys : String → Bool

/-- Go map store `m[k] = f`. -/
def mapInsert (m : String → Option Filter) (key : String) (f : Filter) :
    String → Option Filter :=
  fun x => if x = key then some f else m x

/-- Go map `delete(m, k)`. -/
def mapDelete (m : String → Option Filter) (key : String) :
    String → Option Filter :=
  fun x => if x = key then none else m x

/-- The sink literal allocated by `SinkTo` (sink.go lines 88-96) with the id
assigned at append time (line 98): paused, empty filter maps, empty
hidden-key set. -/
def newSink (w fn idv : Nat) : Sink :=
  { id := idv
    writer := some w
    format := fn
    closed := false
    paused := true
    positiveFilters := fun _ => none
    negativeFilters := fun _ => none
    hiddenKeys := fun _ => false }

/-- `WithKey` (sink.go lines 107-117): for each key install a positive
key-presence filter and delete any negative filter; no-op when closed. -/
def Sink.WithKey (s : Sink) (keys : List String) : Sink :=
  if s.closed then s
  else
    keys.foldl
      (fun t key =>
        { t with
          positiveFilters := mapInsert t.positiveFilters key .keyFilter
          negativeFilters := mapDelete t.negativeFilters key })
      s

/-- `WithoutKey` (sink.go lines 121-131). -/
def Sink.WithoutKey (s : Sink) (keys : List String) : Sink :=
  if s.closed then s
  else
    keys.foldl
      (fun t key =>
        { t with
          negativeFilters := mapInsert t.negativeFilters key .keyFilter
          positiveFilters := mapDelete t.positiveFilters key })
      s

/-- `WithValue` (sink.go lines 135-146): an empty value list delegates to
`WithKey`. -/
def Sink.WithValue (s : Sink) (key : String) (vals : List String) : Sink :=
  if vals.isEmpty then s.WithKey [key]
  else if s.closed then s
  else
    { s with
      positiveFilters := mapInsert s.positiveFilters key (.valsFilter vals)
      negativeFilters := mapDelete s.negativeFilters key }

/-- `WithoutValue` (sink.go lines 149-160). -/
def Sink.WithoutValue (s : Sink) (key : String) (vals : List String) : Sink :=
  if vals.isEmpty then s.WithoutKey [key]
  else if s.closed then s
  else
    { s with
      negativeFilters := mapInsert s.negativeFilters key (.valsFilter vals)
      positiveFilters := mapDelete s.positiveFilters key }

/-- `WithInt64Range` (sink.go lines 163-171). -/
def Sink.WithInt64Range (s : Sink) (key : String) (lo hi : Int) : Sink :=
  if s.closed then s
  else
    { s with
      negativeFilters := mapDelete s.negativeFilters key
      positiveFilters := mapInsert s.positiveFilters key (.int64RangeFilter lo hi) }

/-- `WithoutInt64Range` (sink.go lines 174-182). -/
def Sink.WithoutInt64Range (s : Sink) (key : String) (lo hi : Int) : Sink :=
  if s.closed then s
  else
    { s with
      positiveFilters := mapDelete s.positiveFilters key
      negativeFilters := mapInsert s.negativeFilters key (.int64RangeFilter lo hi) }

/-- `WithFloat64Range` (sink.go lines 185-193); float bounds on the abstract
integer carrier. -/
def Sink.WithFloat64Range (s : Sink) (key : String) (lo hi : Int) : Sink :=
  if s.closed then s
  else
    { s with
      negativeFilters := mapDelete s.negativeFilters key
      positiveFilters := mapInsert s.positiveFilters key (.float64RangeFilter lo hi) }

/-- `WithoutFloat64Range` (sink.go lines 196-204). -/
def Sink.WithoutFloat64Range (s : Sink) (key : String) (lo hi : Int) : Sink :=
  if s.closed then s
  else
    { s with
      positiveFilters := mapDelete s.positiveFilters key
      negativeFilters := mapInsert s.negativeFilters key (.float64RangeFilter lo hi) }

/-- `WithTimeRange` (sink.go lines 207-215); time bounds on the abstract
integer carrier. -/
def Sink.WithTimeRange (s : Sink) (key : String) (lo hi : Int) : Sink :=
  if s.closed then s
  else
    { s with
      negativeFilters := mapDelete s.negativeFilters key
      positiveFilters := mapInsert s.positiveFilters key (.timeRangeFilter lo hi) }

/-- `WithoutTimeRange` (sink.go lines 218-226). -/
def Sink.WithoutTimeRange (s : Sink) (key : String) (lo hi : Int) : Sink :=
  if s.closed then s
  else
    { s with
      positiveFilters := mapDelete s.positiveFilters key
      negativeFilters := mapInsert s.negativeFilters key (.timeRangeFilter lo hi) }

/-- `WithFilter` (sink.go lines 231-238): installs the custom filter as a
positive filter for the key.  Note: unlike every other mutator it does NOT
delete an existing negative filter for the key. -/
def Sink.WithFilter (s : Sink) (key : String) (customFilter : Filter) : Sink :=
  if s.closed then s
  else { s with positiveFilters := mapInsert s.positiveFilters key customFilter }

/-- `Reset` (sink.go lines 241-251): delete both classifications for each
key. -/
def Sink.Reset (s : Sink) (keys : List String) : Sink :=
  if s.closed then s
  else
    keys.foldl
      (fun t key =>
        { t with
          positiveFilters := mapDelete t.positiveFilters key
          negativeFilters := mapDelete t.negativeFilters key })
      s

/-- `Hide` (sink.go lines 255-264). -/
def Sink.Hide (s : Sink) (keys : List String) : Sink :=
  if s.closed then s
  else
    keys.foldl
      (fun t key => { t with hiddenKeys := fun x => if x = key then true else t.hiddenKeys x })
      s

/-- `Unhide` (sink.go lines 267-276): `delete(s.hiddenKeys, key)`, i.e. the
lookup of the key falls back to `false`. -/
def Sink.Unhide (s : Sink) (keys : List String) : Sink :=
  if s.closed then s
  else
    keys.foldl
      (fun t key => { t with hiddenKeys := fun x => if x = key then false else t.hiddenKeys x })
      s

/-- `Stop` (sink.go lines 279-284). -/
def Sink.Stop (s : Sink) : Sink := { s with paused := true }

/-- `Start` (sink.go lines 289-294). -/
def Sink.Start (s : Sink) : Sink := { s with paused := false }

/-- `Close` (sink.go lines 297-307): mark closed, detach the writer, splice
the registry list at index `s.id`.  It does not touch any other sink: in
particular it does not reassign the `id` field of the sinks behind the
spliced position.  Returns the new registry and the closed sink. -/
def Sink.Close (s : Sink) (c : List Sink) : List Sink × Sink :=
  if s.closed then (c, s)
  else (c.take s.id ++ c.drop (s.id + 1), { s with closed := true, writer := none })

/-- The scan loop of `SinkTo` (sink.go lines 80-86): find the first sink
whose writer is identical to `w`; replace its formatter in place and return
it; `none` when no registered sink targets `w`. -/
def sinkToLoop (w fn : Nat) : List Sink → Option (List Sink × Sink)
  | [] => none
  | s :: rest =>
      if s.writer = some w then
        some (({ s with format := fn }) :: rest, { s with format := fn })
      else
        match sinkToLoop w fn rest with
        | some (rest2, hit) => some (s :: rest2, hit)
        | none => none

/-- `SinkTo` (sink.go lines 78-103): return the existing sink for an already
registered destination (formatter swapped), or append a fresh paused sink
with id = current registry length. -/
def SinkTo (c : List Sink) (w fn : Nat) : List Sink × Sink :=
  match sinkToLoop w fn c with
  | some r => r
  | none => (c ++ [newSink w fn c.length], newSink w fn c.length)

/-- `sinkRecord` (sink.go lines 396-410): walk the registry, and for each
sink that is neither paused nor closed, add one to the shared WaitGroup
counter and enqueue a box holding the record; the producer then waits for
the counter to drain.  Result: the list of (sink, enqueued box) sends, and
the final WaitGroup count. -/
def sinkRecord (c : List Sink) (rec : List pair) : List (Sink × Box) × Nat :=
  c.foldl
    (fun acc s =>
      if !s.paused && !s.closed then (acc.1 ++ [(s, some rec)], acc.2 + 1) else acc)
    ([], 0)

/-- One pair's verdict in the filter loop of `processOutput` (sink.go lines
362-375): the negative filter registered for the pair's key is consulted
first — if present and true the pair fails; only then the positive filter —
if present and false the pair fails.  A key with no filter imposes no
constraint. -/
def pairPasses (s : Sink) (p : pair) : Bool :=
  (match s.negativeFilters p.Key with
   | some f => !f.Check p.Key p.Val.Strv
   | none => true) &&
  (match s.positiveFilters p.Key with
   | some f => f.Check p.Key p.Val.Strv
   | none => true)

/-- The whole filter loop: `goto skipRecord` on the first failing pair is an
AND over the pairs in record order with short-circuit, i.e. the record is
admitted iff every pair passes. -/
def recordPasses (s : Sink) (rec : List pair) : Bool :=
  rec.all (pairPasses s)

/-- `filterRecord` (sink.go lines 383-394): emit one `format.Pair` call per
pair whose key is not hidden, in record order.  The output trace is the list
of `(key, value, quoted)` arguments of those calls; `Finish`ing and writing
the encoded bytes to the (possibly nil) writer is abstract beyond this trace. -/
def filterRecord (s : Sink) (rec : List pair) : List (String × String × Bool) :=
  rec.foldl
    (fun acc p =>
      if s.hiddenKeys p.Key then acc else acc ++ [(p.Key, p.Val.Strv, p.Val.Quoted)])
    []

/-- What `processOutput` does with one dequeued entry (sink.go lines
338-379).  Every branch signals the entry's completion handle exactly once
(the handle is always present, see the header comment). -/
inductive StepResult where
  | terminated : StepResult
  | flushAck : StepResult
  | droppedPaused : StepResult
  | rejected : StepResult
  | written (out : List (String × String × Bool)) : StepResult
deriving DecidableEq

/-- One iteration of the `processOutput` loop on a dequeued box, for the
sink state `s` as read under the lock:
1. closed → signal and terminate the processing task (`return`);
2. flush marker → signal and continue;
3. paused → signal, drop unformatted, continue;
4. otherwise filter; rejected records are dropped, admitted records are
   formatted and written.  Signal, continue. -/
def processEntry (s : Sink) (b : Box) : StepResult :=
  if s.closed then .terminated
  else
    match b with
    | none => .flushAck
    | some rec =>
        if s.paused then .droppedPaused
        else if recordPasses s rec then .written (filterRecord s rec)
        else .rejected

/-- The `processOutput` loop over a queued segment during which the sink
state is not mutated from outside: handle entries in order, stopping the
task at the first `terminated` step.  Entries after that point are never
dequeued and their completion handles are never signaled. -/
def processQueue (s : Sink) : List Box → List StepResult
  | [] => []
  | b :: rest =>
      match processEntry s b with
      | .terminated => [.terminated]
      | r => r :: processQueue s rest

/-- The at-most-one-classification invariant of spec §3: no key is present
in both filter maps. -/
def sinkExclusive (s : Sink) : Prop :=
  ∀ k : String, s.positiveFilters k = none ∨ s.negativeFilters k = none

/-- The written outputs occurring in a trace. -/
def writtenOutputs (rs : List StepResult) : List (List (String × String × Bool)) :=
  rs.filterMap fun r =>
    match r with
    | .written o => some o
    | _ => none

/-! ## Helper lemmas -/

theorem filterRecord_go (s : Sink) (rec : List pair)
    (acc : List (String × String × Bool)) :
    rec.foldl
      (fun acc p =>
        if s.hiddenKeys p.Key then acc else acc ++ [(p.Key, p.Val.Strv, p.Val.Quoted)])
      acc
      = acc ++ rec.filterMap (fun p =>
          if s.hiddenKeys p.Key then none else some (p.Key, p.Val.Strv, p.Val.Quoted)) := by
  induction rec generalizing acc with
  | nil => simp
  | cons p rest ih =>
      by_cases h : s.hiddenKeys p.Key <;> simp [h, ih]

theorem sinkExclusive_insPos (s : Sink) (key : String) (f : Filter)
    (h : sinkExclusive s) :
    sinkExclusive
      { s with
        positiveFilters := mapInsert s.positiveFilters key f
        negativeFilters := mapDelete s.negativeFilters key } := by
  intro k
  by_cases hk : k = key
  · right
    simp [mapDelete, hk]
  · rcases h k with hp | hn
    · left
      simpa [mapInsert, hk] using hp
    · right
      simpa [mapDelete, hk] using hn

theorem sinkExclusive_insNeg (s : Sink) (key : String) (f : Filter)
    (h : sinkExclusive s) :
    sinkExclusive
      { s with
        negativeFilters := mapInsert s.negativeFilters key f
        positiveFilters := mapDelete s.positiveFilters key } := by
  intro k
  by_cases hk : k = key
  · left
    simp [mapDelete, hk]
  · rcases h k with hp | hn
    · left
      simpa [mapDelete, hk] using hp
    · right
      simpa [mapInsert, hk] using hn

theorem sinkExclusive_foldPos (keys : List String) (s : Sink)
    (h : sinkExclusive s) :
    sinkExclusive
      (keys.foldl
        (fun t key =>
          { t with
            positiveFilters := mapInsert t.positiveFilters key .keyFilter
            negativeFilters := mapDelete t.negativeFilters key })
        s) := by
  induction keys generalizing s with
  | nil => exact h
  | cons k ks ih => exact ih _ (sinkExclusive_insPos s k _ h)

theorem sinkExclusive_foldNeg (keys : List String) (s : Sink)
    (h : sinkExclusive s) :
    sinkExclusive
      (keys.foldl
        (fun t key =>
          { t with
            negativeFilters := mapInsert t.negativeFilters key .keyFilter
            positiveFilters := mapDelete t.positiveFilters key })
        s) := by
  induction keys generalizing s with
  | nil => exact h
  | cons k ks ih => exact ih _ (sinkExclusive_insNeg s k _ h)

/-! ## Claims -/

/-- C1: for every record dispatched to a running (open, unpaused) sink, if
any pair of the record has a negative filter registered for its key whose
predicate is true on the pair, the entire record is rejected — not
formatted, not written — regardless of the positive filters in force. -/
theorem C1_negative_filter_veto (s : Sink) (rec : List pair) (p : pair) (f : Filter)
    (hc : s.closed = false) (hp : s.paused = false)
    (hmem : p ∈ rec)
    (hf : s.negativeFilters p.Key = some f)
    (hchk : f.Check p.Key p.Val.Strv = true) :
    processEntry s (some rec) = .rejected := by
  have hpair : pairPasses s p = false := by
    unfold pairPasses
    rw [hf]
    simp [hchk]
  have hrec : recordPasses s rec = false := by
    unfold recordPasses
    rw [List.all_eq_false]
    exact ⟨p, hmem, by simp [hpair]⟩
  simp [processEntry, hc, hp, hrec]

/-- C1 witness: a concrete running sink with a negative filter on key `a`
whose predicate is true rejects the record `[a=v]`. -/
theorem C1_negative_filter_veto_witness :
    ({ newSink 0 0 0 with
        paused := false
        negativeFilters :=
          mapInsert (fun _ => none) "a" (.custom fun _ _ => true) } : Sink).closed
        = false ∧
    processEntry
      { newSink 0 0 0 with
        paused := false
        negativeFilters := mapInsert (fun _ => none) "a" (.custom fun _ _ => true) }
      (some [⟨"a", ⟨"v", false⟩⟩]) = .rejected :=
  ⟨rfl,
    C1_negative_filter_veto _ [⟨"a", ⟨"v", false⟩⟩] ⟨"a", ⟨"v", false⟩⟩
      (.custom fun _ _ => true) rfl rfl (by simp) rfl rfl⟩

/-- C6: a paused, open sink signals and drops every dequeued record without
filtering, formatting or writing it, and nothing is retained for replay: the
outputs of a paused phase are empty, and the outputs of a paused phase
followed by a restarted phase are exactly those of the restarted phase. -/
theorem C6_paused_drop (s : Sink) (rec : List pair) (q1 q2 : List Box)
    (hp : s.paused = true) (hc : s.closed = false) :
    processEntry s (some rec) = .droppedPaused ∧
    writtenOutputs (processQueue s q1) = [] ∧
    writtenOutputs (processQueue s q1 ++ processQueue s.Start q2) =
      writtenOutputs (processQueue s.Start q2) := by
  have h2 : ∀ q : List Box, writtenOutputs (processQueue s q) = [] := by
    intro q
    induction q with
    | nil => rfl
    | cons b rest ih =>
        cases b with
        | none =>
            simp [processQueue, processEntry, hc, writtenOutputs, List.filterMap_cons] at ih ⊢
            exact ih
        | some r =>
            simp [processQueue, processEntry, hc, hp, writtenOutputs,
              List.filterMap_cons] at ih ⊢
            exact ih
  refine ⟨by simp [processEntry, hc, hp], h2 q1, ?_⟩
  unfold writtenOutputs
  rw [List.filterMap_append]
  have := h2 q1
  unfold writtenOutputs at this
  rw [this, List.nil_append]

/-- C6 witness: the freshly created sink (paused) drops a concrete record,
and restarting it makes the same record pass through. -/
theorem C6_paused_drop_witness :
    (newSink 0 0 0).paused = true ∧ (newSink 0 0 0).closed = false ∧
    (processEntry (newSink 0 0 0) (some [⟨"k", ⟨"v", false⟩⟩]) = .droppedPaused ∧
     writtenOutputs (processQueue (newSink 0 0 0) [some [⟨"k", ⟨"v", false⟩⟩]]) = [] ∧
     writtenOutputs
        (processQueue (newSink 0 0 0) [some [⟨"k", ⟨"v", false⟩⟩]] ++
         processQueue (newSink 0 0 0).Start [some [⟨"k", ⟨"v", false⟩⟩]]) =
       writtenOutputs (processQueue (newSink 0 0 0).Start [some [⟨"k", ⟨"v", false⟩⟩]])) :=
  ⟨rfl, rfl,
    C6_paused_drop (newSink 0 0 0) [⟨"k", ⟨"v", false⟩⟩]
      [some [⟨"k", ⟨"v", false⟩⟩]] [some [⟨"k", ⟨"v", false⟩⟩]] rfl rfl⟩

/-- C7: a record accepted by the filter stage of a running sink is formatted
as exactly its pairs with non-hidden keys, in record order; and the filter
verdict is independent of the hidden-key set, so a hidden key carrying a
rejecting filter still rejects the whole record. -/
theorem C7_hidden_keys_redacted_but_filtered (s : Sink) (rec : List pair)
    (hc : s.closed = false) (hp : s.paused = false)
    (hpass : recordPasses s rec = true) :
    processEntry s (some rec) = .written (filterRecord s rec) ∧
    filterRecord s rec =
      rec.filterMap (fun p =>
        if s.hiddenKeys p.Key then none else some (p.Key, p.Val.Strv, p.Val.Quoted)) ∧
    ∀ h2 : String → Bool,
      recordPasses { s with hiddenKeys := h2 } rec = recordPasses s rec := by
  refine ⟨by simp [processEntry, hc, hp, hpass], ?_, fun h2 => rfl⟩
  unfold filterRecord
  rw [filterRecord_go]
  simp

/-- C7 witness: a running sink hiding key `secret` formats the record
`[secret=s, msg=hi]` as `[msg=hi]` only. -/
theorem C7_hidden_keys_witness :
    ({ newSink 0 0 0 with
        paused := false
        hiddenKeys := fun k => k = "secret" } : Sink).closed = false ∧
    recordPasses
      { newSink 0 0 0 with paused := false, hiddenKeys := fun k => k = "secret" }
      [⟨"secret", ⟨"s", false⟩⟩, ⟨"msg", ⟨"hi", false⟩⟩] = true ∧
    processEntry
      { newSink 0 0 0 with paused := false, hiddenKeys := fun k => k = "secret" }
      (some [⟨"secret", ⟨"s", false⟩⟩, ⟨"msg", ⟨"hi", false⟩⟩]) =
      .written [("msg", "hi", false)] := by
  refine ⟨rfl, by simp [recordPasses, pairPasses, newSink], ?_⟩
  have h :=
    (C7_hidden_keys_redacted_but_filtered
      { newSink 0 0 0 with paused := false, hiddenKeys := fun k => k = "secret" }
      [⟨"secret", ⟨"s", false⟩⟩, ⟨"msg", ⟨"hi", false⟩⟩] rfl rfl
      (by simp [recordPasses, pairPasses, newSink]))
  rw [h.1, h.2.1]
  simp

/-- C10: with an empty value list, `WithValue` produces exactly the sink
state of `WithKey`, and `WithoutValue` that of `WithoutKey` (the code
delegates directly). -/
theorem C10_empty_vals_delegate (s : Sink) (key : String)
    (hc : s.closed = false) :
    s.WithValue key [] = s.WithKey [key] ∧
    s.WithoutValue key [] = s.WithoutKey [key] :=
  ⟨rfl, rfl⟩

/-- C10 witness at a concrete open sink. -/
theorem C10_empty_vals_delegate_witness :
    (newSink 0 0 0).closed = false ∧
    ((newSink 0 0 0).WithValue "k" [] = (newSink 0 0 0).WithKey ["k"] ∧
     (newSink 0 0 0).WithoutValue "k" [] = (newSink 0 0 0).WithoutKey ["k"]) :=
  ⟨rfl, C10_empty_vals_delegate (newSink 0 0 0) "k" rfl⟩

/-- C8: on a closed sink every filter/redaction mutator returns the sink
unchanged (in particular the positive-filter map, negative-filter map and
hidden-key set are untouched) and no error is reported. -/
theorem C8_closed_mutators_noop (s : Sink) (keys : List String) (key : String)
    (vals : List String) (lo hi : Int) (f : Filter)
    (hc : s.closed = true) :
    s.WithKey keys = s ∧ s.WithoutKey keys = s ∧
    s.WithValue key vals = s ∧ s.WithoutValue key vals = s ∧
    s.WithInt64Range key lo hi = s ∧ s.WithoutInt64Range key lo hi = s ∧
    s.WithFloat64Range key lo hi = s ∧ s.WithoutFloat64Range key lo hi = s ∧
    s.WithTimeRange key lo hi = s ∧ s.WithoutTimeRange key lo hi = s ∧
    s.WithFilter key f = s ∧ s.Reset keys = s ∧
    s.Hide keys = s ∧ s.Unhide keys = s := by
  refine ⟨?_, ?_, ?_, ?_, ?_, ?_, ?_, ?_, ?_, ?_, ?_, ?_, ?_, ?_⟩ <;>
    simp [Sink.WithKey, Sink.WithoutKey, Sink.WithValue, Sink.WithoutValue,
      Sink.WithInt64Range, Sink.WithoutInt64Range, Sink.WithFloat64Range,
      Sink.WithoutFloat64Range, Sink.WithTimeRange, Sink.WithoutTimeRange,
      Sink.WithFilter, Sink.Reset, Sink.Hide, Sink.Unhide, hc]

/-- C8 witness: all fourteen mutators are no-ops on a concrete closed
sink. -/
theorem C8_closed_mutators_noop_witness :
    ({ newSink 0 0 0 with closed := true } : Sink).closed = true ∧
    ({ newSink 0 0 0 with closed := true } : Sink).WithKey ["k"]
      = { newSink 0 0 0 with closed := true } ∧
    ({ newSink 0 0 0 with closed := true } : Sink).Unhide ["k"]
      = { newSink 0 0 0 with closed := true } := by
  have h :=
    C8_closed_mutators_noop { newSink 0 0 0 with closed := true } ["k"] "k" ["v"]
      0 1 .keyFilter rfl
  exact ⟨rfl, h.1, h.2.2.2.2.2.2.2.2.2.2.2.2.2⟩

/-- C4 counterexample: the claim includes `WithFilter` among the mutators
preserving the at-most-one-classification invariant, but `WithFilter`
(sink.go lines 231-238) does not delete an existing negative filter for the
key: after `WithoutKey("a")` followed by `WithFilter("a", keyFilter)` the key
`a` is present in both filter maps. -/
theorem C4_withfilter_counterexample :
    sinkExclusive ((newSink 0 0 0).WithoutKey ["a"]) ∧
    ¬ sinkExclusive (((newSink 0 0 0).WithoutKey ["a"]).WithFilter "a" .keyFilter) := by
  constructor
  · intro k
    left
    simp [Sink.WithoutKey, newSink, mapInsert, mapDelete]
  · intro hcl
    rcases hcl "a" with h | h <;>
      simp [Sink.WithFilter, Sink.WithoutKey, newSink, mapInsert, mapDelete] at h

/-- C4 (amended): every listed mutator except `WithFilter` preserves the
invariant that no key is simultaneously in the positive- and negative-filter
maps; `WithFilter` installs a positive filter without clearing a negative
one. -/
theorem C4_mutators_preserve_exclusivity (s : Sink) (keys : List String)
    (key : String) (vals : List String) (lo hi : Int)
    (h : sinkExclusive s) :
    sinkExclusive (s.WithKey keys) ∧
    sinkExclusive (s.WithoutKey keys) ∧
    sinkExclusive (s.WithValue key vals) ∧
    sinkExclusive (s.WithoutValue key vals) ∧
    sinkExclusive (s.WithInt64Range key lo hi) ∧
    sinkExclusive (s.WithoutInt64Range key lo hi) ∧
    sinkExclusive (s.WithFloat64Range key lo hi) ∧
    sinkExclusive (s.WithoutFloat64Range key lo hi) ∧
    sinkExclusive (s.WithTimeRange key lo hi) ∧
    sinkExclusive (s.WithoutTimeRange key lo hi) := by
  have hkey : ∀ t : Sink, sinkExclusive t → sinkExclusive (t.WithKey [key]) := by
    intro t ht
    unfold Sink.WithKey
    split
    · exact ht
    · exact sinkExclusive_foldPos [key] t ht
  have hnokey : ∀ t : Sink, sinkExclusive t → sinkExclusive (t.WithoutKey [key]) := by
    intro t ht
    unfold Sink.WithoutKey
    split
    · exact ht
    · exact sinkExclusive_foldNeg [key] t ht
  refine ⟨?_, ?_, ?_, ?_, ?_, ?_, ?_, ?_, ?_, ?_⟩
  · unfold Sink.WithKey
    split
    · exact h
    · exact sinkExclusive_foldPos keys s h
  · unfold Sink.WithoutKey
    split
    · exact h
    · exact sinkExclusive_foldNeg keys s h
  · unfold Sink.WithValue
    split
    · exact hkey s h
    · split
      · exact h
      · exact sinkExclusive_insPos s key _ h
  · unfold Sink.WithoutValue
    split
    · exact hnokey s h
    · split
      · exact h
      · exact sinkExclusive_insNeg s key _ h
  · unfold Sink.WithInt64Range
    split
    · exact h
    · exact sinkExclusive_insPos s key _ h
  · unfold Sink.WithoutInt64Range
    split
    · exact h
    · exact sinkExclusive_insNeg s key _ h
  · unfold Sink.WithFloat64Range
    split
    · exact h
    · exact sinkExclusive_insPos s key _ h
  · unfold Sink.WithoutFloat64Range
    split
    · exact h
    · exact sinkExclusive_insNeg s key _ h
  · unfold Sink.WithTimeRange
    split
    · exact h
    · exact sinkExclusive_insPos s key _ h
  · unfold Sink.WithoutTimeRange
    split
    · exact h
    · exact sinkExclusive_insNeg s key _ h

/-- C4 witness: the ten non-custom mutators preserve the invariant on a
concrete fresh sink. -/
theorem C4_mutators_preserve_exclusivity_witness :
    sinkExclusive (newSink 0 0 0) ∧
    (sinkExclusive ((newSink 0 0 0).WithKey ["k"]) ∧
     sinkExclusive ((newSink 0 0 0).WithoutKey ["k"]) ∧
     sinkExclusive ((newSink 0 0 0).WithValue "k" ["v"]) ∧
     sinkExclusive ((newSink 0 0 0).WithoutValue "k" ["v"]) ∧
     sinkExclusive ((newSink 0 0 0).WithInt64Range "k" 0 1) ∧
     sinkExclusive ((newSink 0 0 0).WithoutInt64Range "k" 0 1) ∧
     sinkExclusive ((newSink 0 0 0).WithFloat64Range "k" 0 1) ∧
     sinkExclusive ((newSink 0 0 0).WithoutFloat64Range "k" 0 1) ∧
     sinkExclusive ((newSink 0 0 0).WithTimeRange "k" 0 1) ∧
     sinkExclusive ((newSink 0 0 0).WithoutTimeRange "k" 0 1)) :=
  ⟨fun _ => Or.inl rfl,
    C4_mutators_preserve_exclusivity (newSink 0 0 0) ["k"] "k" ["v"] 0 1
      (fun _ => Or.inl rfl)⟩

/-- C2 counterexample: the claim says every entry queued at close time is
signaled.  But `processOutput` (sink.go lines 339-345) `return`s right after
signaling the FIRST entry it dequeues once the closed flag is set: with two
flush markers queued on a closed sink the trace handles only one entry; the
second marker is never dequeued and its completion handle is never
signaled, so its producer waits forever. -/
theorem C2_close_drain_counterexample :
    processQueue ((newSink 0 0 0).Close [newSink 0 0 0]).2 [(none : Box), (none : Box)]
      = [.terminated] ∧
    (processQueue ((newSink 0 0 0).Close [newSink 0 0 0]).2
        [(none : Box), (none : Box)]).length ≠
      ([(none : Box), (none : Box)]).length := by
  refine ⟨rfl, ?_⟩
  intro h
  simp [processQueue, processEntry, Sink.Close, newSink] at h

/-- C2 (amended): once the closed flag is observed, the processing task
signals and drops the first entry it dequeues and then terminates; every
entry queued behind it is never dequeued and never signaled. -/
theorem C2_close_first_entry_only (s : Sink) (b : Box) (rest : List Box)
    (hc : s.closed = true) :
    processQueue s (b :: rest) = [.terminated] := by
  simp [processQueue, processEntry, hc]

/-- C2 witness: the amended behaviour on a concrete closed sink with a
two-entry queue. -/
theorem C2_close_first_entry_only_witness :
    (((newSink 0 0 0).Close [newSink 0 0 0]).2).closed = true ∧
    processQueue ((newSink 0 0 0).Close [newSink 0 0 0]).2 ((none : Box) :: [(none : Box)])
      = [.terminated] :=
  ⟨rfl, C2_close_first_entry_only _ none [none] rfl⟩

theorem sinkRecord_go (rec : List pair) (reg : List Sink)
    (init : List (Sink × Box) × Nat) :
    reg.foldl
      (fun acc s =>
        if !s.paused && !s.closed then (acc.1 ++ [(s, some rec)], acc.2 + 1) else acc)
      init
      = (init.1 ++ (reg.filter fun s => !s.paused && !s.closed).map
            (fun s => (s, (some rec : Box))),
         init.2 + (reg.filter fun s => !s.paused && !s.closed).length) := by
  induction reg generalizing init with
  | nil => simp
  | cons s rest ih =>
      rw [List.foldl_cons, List.filter_cons]
      by_cases h : (!s.paused && !s.closed) = true
      · rw [if_pos h, if_pos h, ih]
        refine Prod.ext ?_ ?_
        · simp
        · simp
          omega
      · rw [if_neg h, if_neg h, ih]

/-- C5: on record submission, the boxes are enqueued to exactly the
registered sinks that are neither paused nor closed at snapshot time (in
registry order, each carrying the shared record), and the shared completion
handle's final count equals the size of that set, which is what the producer
waits out; paused or closed sinks receive nothing and contribute nothing to
the count. -/
theorem C5_broadcast_snapshot (reg : List Sink) (rec : List pair) :
    (sinkRecord reg rec).1 =
      (reg.filter fun s => !s.paused && !s.closed).map (fun s => (s, (some rec : Box))) ∧
    (sinkRecord reg rec).2 = (reg.filter fun s => !s.paused && !s.closed).length := by
  unfold sinkRecord
  rw [sinkRecord_go]
  exact ⟨by simp, by simp⟩

theorem sinkToLoop_eq_none (w fn : Nat) (reg : List Sink)
    (h : ∀ s ∈ reg, s.writer ≠ some w) : sinkToLoop w fn reg = none := by
  induction reg with
  | nil => rfl
  | cons t rest ih =>
      have ht : ¬ t.writer = some w := h t (by simp)
      rw [sinkToLoop, if_neg ht, ih fun s hs => h s (by simp [hs])]

theorem sinkToLoop_eq_some (w fn : Nat) (reg : List Sink)
    (h : ∃ s ∈ reg, s.writer = some w) :
    ∃ i s, reg[i]? = some s ∧ s.writer = some w ∧
      sinkToLoop w fn reg
        = some (reg.set i { s with format := fn }, { s with format := fn }) := by
  induction reg with
  | nil => simp at h
  | cons t rest ih =>
      by_cases ht : t.writer = some w
      · exact ⟨0, t, by simp, ht, by rw [sinkToLoop, if_pos ht]; rfl⟩
      · obtain ⟨s, hs, hw⟩ : ∃ s ∈ rest, s.writer = some w := by
          rcases h with ⟨s, hmem, hw⟩
          rcases List.mem_cons.mp hmem with rfl | hr
          · exact absurd hw ht
          · exact ⟨s, hr, hw⟩
        obtain ⟨i, s', hget, hw', hloop⟩ := ih ⟨s, hs, hw⟩
        refine ⟨i + 1, s', by simpa using hget, hw', ?_⟩
        rw [sinkToLoop, if_neg ht, hloop, List.set_cons_succ]

/-- C3: `SinkTo` is idempotent by destination identity.  If some registered
sink already targets `w`, the first such sink is returned with only its
formatter replaced — positive filters, negative filters, hidden keys and id
untouched — and no new sink is appended; only when no sink targets `w` is a
fresh paused sink allocated and appended with the next positional id. -/
theorem C3_sinkto_idempotent_by_identity (reg : List Sink) (w fn : Nat) :
    ((∃ s ∈ reg, s.writer = some w) →
      ∃ i s, reg[i]? = some s ∧ s.writer = some w ∧
        SinkTo reg w fn = (reg.set i { s with format := fn }, { s with format := fn }) ∧
        (SinkTo reg w fn).1.length = reg.length ∧
        (SinkTo reg w fn).2.format = fn ∧
        (SinkTo reg w fn).2.positiveFilters = s.positiveFilters ∧
        (SinkTo reg w fn).2.negativeFilters = s.negativeFilters ∧
        (SinkTo reg w fn).2.hiddenKeys = s.hiddenKeys ∧
        (SinkTo reg w fn).2.id = s.id) ∧
    ((∀ s ∈ reg, s.writer ≠ some w) →
      SinkTo reg w fn = (reg ++ [newSink w fn reg.length], newSink w fn reg.length)) := by
  constructor
  · intro h
    obtain ⟨i, s, hget, hw, hloop⟩ := sinkToLoop_eq_some w fn reg h
    have hS : SinkTo reg w fn = (reg.set i { s with format := fn }, { s with format := fn }) := by
      rw [SinkTo, hloop]
    exact ⟨i, s, hget, hw, hS, by rw [hS]; exact List.length_set reg i _,
      by rw [hS], by rw [hS], by rw [hS], by rw [hS], by rw [hS]⟩
  · intro h
    rw [SinkTo, sinkToLoop_eq_none w fn reg h]

/-- C3 witness: re-registering destination `5` on a one-sink registry
returns the existing sink with the new formatter, and registering a fresh
destination on the empty registry appends a new sink. -/
theorem C3_sinkto_idempotent_witness :
    (∃ s ∈ [newSink 5 7 0], s.writer = some 5) ∧
    (∃ i s, ([newSink 5 7 0])[i]? = some s ∧ s.writer = some 5 ∧
      SinkTo [newSink 5 7 0] 5 9
        = ([newSink 5 7 0].set i { s with format := 9 }, { s with format := 9 }) ∧
      (SinkTo [newSink 5 7 0] 5 9).1.length = [newSink 5 7 0].length ∧
      (SinkTo [newSink 5 7 0] 5 9).2.format = 9 ∧
      (SinkTo [newSink 5 7 0] 5 9).2.positiveFilters = s.positiveFilters ∧
      (SinkTo [newSink 5 7 0] 5 9).2.negativeFilters = s.negativeFilters ∧
      (SinkTo [newSink 5 7 0] 5 9).2.hiddenKeys = s.hiddenKeys ∧
      (SinkTo [newSink 5 7 0] 5 9).2.id = s.id) ∧
    (∀ s ∈ ([] : List Sink), s.writer ≠ some 5) ∧
    SinkTo [] 5 9 = ([newSink 5 9 0], newSink 5 9 0) := by
  have h1 : ∃ s ∈ [newSink 5 7 0], s.writer = some 5 := ⟨newSink 5 7 0, by simp, rfl⟩
  have h2 : ∀ s ∈ ([] : List Sink), s.writer ≠ some 5 := by simp
  refine ⟨h1, (C3_sinkto_idempotent_by_identity [newSink 5 7 0] 5 9).1 h1, h2, ?_⟩
  have h3 := (C3_sinkto_idempotent_by_identity [] 5 9).2 h2
  simpa using h3

/-- Registry after registering destination `1` (for the C9 refutation). -/
def regOne : List Sink := (SinkTo [] 1 10).1

/-- The sink handle returned for destination `1` (id 0). -/
def sinkOne : Sink := (SinkTo [] 1 10).2

/-- Registry after also registering destination `2`: two sinks with ids 0
and 1. -/
def regTwo : List Sink := (SinkTo regOne 2 10).1

/-- Registry after closing the sink at position 0. -/
def regAfterClose : List Sink := (sinkOne.Close regTwo).1

/-- C9 counterexample: `Close` (sink.go lines 297-307) splices the registry
at `s.id` but never touches the `id` field of any other sink.  Closing the
sink at position 0 of a two-sink registry leaves the remaining sink at
position 0 still carrying id 1, so it is NOT the case that every registered
sink's id equals its current position afterwards. -/
theorem C9_ids_stale_counterexample :
    regTwo.map Sink.id = [0, 1] ∧
    regAfterClose.map Sink.id = [1] ∧
    regAfterClose.map Sink.id ≠ List.range regAfterClose.length := by
  refine ⟨rfl, rfl, ?_⟩
  intro h
  have h1 : regAfterClose.map Sink.id = [1] := rfl
  have h2 : List.range regAfterClose.length = [0] := rfl
  rw [h1, h2] at h
  simp at h

/-- C9 (amended): ids are not reassigned on removal.  In a registry whose
ids equal their positions, closing the open sink at position k removes
exactly that entry; the sinks formerly below k keep id = position, while
every sink formerly above k keeps its old id, which now exceeds its new
position by one — so the stored ids above k (and any externally cached
copy) are stale. -/
theorem C9_close_keeps_ids (reg : List Sink) (k : Nat) (hk : k < reg.length)
    (hid : ∀ i, (hi : i < reg.length) → reg[i].id = i)
    (hopen : reg[k].closed = false) :
    ((reg[k].Close reg).1).length = reg.length - 1 ∧
    (∀ i, (hi : i < ((reg[k].Close reg).1).length) → i < k →
       (((reg[k].Close reg).1)[i]).id = i) ∧
    (∀ i, (hi : i < ((reg[k].Close reg).1).length) → k ≤ i →
       (((reg[k].Close reg).1)[i]).id = i + 1) := by
  have hidk : reg[k].id = k := hid k hk
  have hC : (reg[k].Close reg).1 = reg.take k ++ reg.drop (k + 1) := by
    rw [Sink.Close, if_neg (by simp [hopen]), hidk]
  have hlt : (reg.take k).length = k := by
    rw [List.length_take]
    omega
  refine ⟨?_, ?_, ?_⟩
  · rw [hC]
    rw [List.length_append, hlt, List.length_drop]
    omega
  · intro i hi hik
    rw [hC] at hi
    simp only [hC]
    have h1 : i < (reg.take k).length := by
      rw [hlt]
      exact hik
    rw [List.getElem_append_left h1, List.getElem_take]
    exact hid i (by omega)
  · intro i hi hik
    rw [hC] at hi
    simp only [hC]
    have h1 : (reg.take k).length ≤ i := by
      rw [hlt]
      exact hik
    have hlen : i < (reg.take k).length + (reg.drop (k + 1)).length := by
      simpa [List.length_append] using hi
    have hidx : (k + 1) + (i - (reg.take k).length) < reg.length := by
      rw [hlt] at hlen ⊢
      rw [List.length_drop] at hlen
      omega
    rw [List.getElem_append_right h1, List.getElem_drop, hid _ hidx, hlt]
    omega

/-- Concrete two-sink registry with ids equal to positions (C9 witness). -/
def wReg : List Sink := [newSink 1 10 0, newSink 2 10 1]

/-- C9 witness: closing the open sink at position 0 of the concrete
registry leaves one sink whose stored id (1) exceeds its position (0) by
one. -/
theorem C9_close_keeps_ids_witness :
    (0 < wReg.length ∧ (∀ i, (hi : i < wReg.length) → wReg[i].id = i) ∧
      wReg[0].closed = false) ∧
    (((wReg[0].Close wReg).1).length = wReg.length - 1 ∧
     (∀ i, (hi : i < ((wReg[0].Close wReg).1).length) → i < 0 →
        (((wReg[0].Close wReg).1)[i]).id = i) ∧
     (∀ i, (hi : i < ((wReg[0].Close wReg).1).length) → 0 ≤ i →
        (((wReg[0].Close wReg).1)[i]).id = i + 1)) := by
  have hid : ∀ i, (hi : i < wReg.length) → wReg[i].id = i := by
    intro i hi
    match i, hi with
    | 0, _ => rfl
    | 1, _ => rfl
  exact ⟨⟨by decide, hid, rfl⟩, C9_close_keeps_ids wReg 0 (by decide) hid rfl⟩

end Kiwi
